import Mathlib

/-!
Verification development for the llmspec prebuild pipelines
(`website/scripts/build-skills.mjs`, shipped here as src/unnamed/part_001, and
`website/scripts/build-definitions.mjs`, src/unnamed/part_002).

Modelling conventions (shallow embedding):
* JavaScript strings are modelled as `List Char` (`Str`).  The scripts only
  manipulate BMP text, where one JS UTF-16 code unit is one `Char`.
* JavaScript numbers that can be non-finite are modelled by `JNum`
  (`nan`, infinities, or a finite value).  Finite numeric payloads are carried
  as `Int`; the pipelines never compute with them, they only test finiteness
  and pass them through.
* POSIX path behaviour is modelled (`path.sep = '/'`), so the script's
  `split(path.sep).join('/')` normalisation is the identity and is dropped.
* Absolute paths are modelled as lists of path segments (`List Str`).
* Filesystem state is passed in explicitly as a corpus value; `async` I/O in
  the scripts is strictly sequential, so it is embedded as a pure fold.
-/

/-- JS strings as lists of UTF-16 code units (BMP chars). -/
abbrev Str := List Char

/-- A JavaScript number: `Number.isFinite` distinguishes `fin` from the rest.
The pipelines never do arithmetic on these values, so the finite payload is
abstracted as an `Int`. -/
inductive JNum where
  | nan : JNum
  | inf : JNum
  | ninf : JNum
  | fin : Int → JNum
deriving DecidableEq, Repr

/-- `Number.isFinite` on a `JNum`. -/
def JNum.isFinite : JNum → Bool
  | .fin _ => true
  | _ => false

/-- `asNumber` from build-definitions.mjs: keep a value only when it is a
finite number (non-number inputs are represented as `none` upstream). -/
def jAsNumber : Option JNum → Option Int
  | some (.fin z) => some z
  | _ => none

/-- JS `String.prototype.trim` (whitespace stripped from both ends). -/
def jsTrim (s : Str) : Str :=
  ((s.dropWhile Char.isWhitespace).reverse.dropWhile Char.isWhitespace).reverse

/-- Lower-case a string, JS `toLowerCase` restricted to ASCII (the only case
the scripts rely on). -/
def lowerStr (s : Str) : Str := s.map Char.toLower

/-- JS `String.prototype.endsWith`. -/
def endsWithStr (s suffix : Str) : Bool := suffix.reverse.isPrefixOf s.reverse

/-- JS `String.prototype.includes` (substring containment). -/
def hasInfix (pat : Str) : Str → Bool
  | [] => pat.isPrefixOf ([] : Str)
  | c :: cs => pat.isPrefixOf (c :: cs) || hasInfix pat cs

/-- Split a string on `'/'`, keeping empty segments (JS `split('/')`). -/
def splitSlashAux : Str → Str → List Str
  | [], cur => [cur.reverse]
  | c :: cs, cur =>
    if c == '/' then cur.reverse :: splitSlashAux cs [] else splitSlashAux cs (c :: cur)

/-- JS `rel.split('/')`. -/
def splitSlash (s : Str) : List Str := splitSlashAux s []

/-- `path.posix.basename` for the relative paths the scripts feed it:
the last non-empty `/`-separated segment (empty for the empty path). -/
def posixBasename (s : Str) : Str :=
  (((splitSlash s).filter (fun seg => !seg.isEmpty)).getLast?).getD []

/--
`truncate(str, maxChars)` from build-skills.mjs / build-definitions.mjs:
non-strings (modelled as `none`) and non-finite or non-positive budgets
produce `''`; strings at or under budget pass through; over budget the string
is cut to `maxChars - 1` chars plus one ellipsis char (`maxChars === 1` gives
just the ellipsis).
-/
def truncate (str : Option Str) (maxChars : JNum) : Str :=
  match str with
  | none => []
  | some s =>
    match maxChars with
    | .fin z =>
      if z ≤ 0 then []
      else if (s.length : Int) ≤ z then s
      else if z = 1 then ['…']
      else s.take (z - 1).toNat ++ ['…']
    | _ => []

/-- `PUBLIC_DESC_MAX_CHARS` (both scripts). -/
def PUBLIC_DESC_MAX_CHARS : Int := 500

/-- The fixed denylist of directory names (both scripts, `excludedDirNames`). -/
def excludedDirNames : List Str :=
  [("__pycache__").toList, (".ssh").toList, ("node_modules").toList,
   (".venv").toList, ("venv").toList, ("env").toList, ("dist").toList,
   (".idea").toList, (".vscode").toList, (".terraform").toList]

/--
`shouldExcludePath(relPathLike, { isDirectory })`, identical in both scripts.
The JS early-return chain of checks, each returning `true`, is embedded as the
disjunction of the same checks in the same order.
-/
def shouldExcludePath (relPathLike : Str) (isDirectory : Bool) : Bool :=
  let rel := relPathLike
  let base := posixBasename rel
  let baseLower := lowerStr base
  (base == (".DS_Store").toList) ||
  endsWithStr baseLower ((".pyc").toList) ||
  (base == (".git").toList) || (base == (".svn").toList) || (base == (".hg").toList) ||
  hasInfix (("/.git/").toList) rel || hasInfix (("/.svn/").toList) rel ||
    hasInfix (("/.hg/").toList) rel ||
  (base == (".env").toList) || ((".env.").toList).isPrefixOf base ||
  (base == (".npmrc").toList) ||
  (base == (".yarnrc").toList) || (base == (".yarnrc.yml").toList) ||
  (base == (".pypirc").toList) ||
  (baseLower == ("id_rsa").toList) || (baseLower == ("id_ed25519").toList) ||
  endsWithStr baseLower ((".pem").toList) ||
  endsWithStr baseLower ((".key").toList) ||
  endsWithStr baseLower ((".p12").toList) ||
  endsWithStr baseLower ((".pfx").toList) ||
  endsWithStr baseLower ((".swp").toList) || endsWithStr baseLower ((".swo").toList) ||
  ((splitSlash rel).filter (fun seg => !seg.isEmpty)).any
    (fun seg => excludedDirNames.contains seg) ||
  (isDirectory && (('.') :: []).isPrefixOf base)

/--
The fixed secret/credential/VCS/artifact patterns of `shouldExcludePath`:
every rule of the filter except the final dot-prefixed-directory rule.
These are exactly the `isDirectory`-independent checks.
-/
def fixedPatternMatch (relPathLike : Str) : Bool :=
  let rel := relPathLike
  let base := posixBasename rel
  let baseLower := lowerStr base
  (base == (".DS_Store").toList) ||
  endsWithStr baseLower ((".pyc").toList) ||
  (base == (".git").toList) || (base == (".svn").toList) || (base == (".hg").toList) ||
  hasInfix (("/.git/").toList) rel || hasInfix (("/.svn/").toList) rel ||
    hasInfix (("/.hg/").toList) rel ||
  (base == (".env").toList) || ((".env.").toList).isPrefixOf base ||
  (base == (".npmrc").toList) ||
  (base == (".yarnrc").toList) || (base == (".yarnrc.yml").toList) ||
  (base == (".pypirc").toList) ||
  (baseLower == ("id_rsa").toList) || (baseLower == ("id_ed25519").toList) ||
  endsWithStr baseLower ((".pem").toList) ||
  endsWithStr baseLower ((".key").toList) ||
  endsWithStr baseLower ((".p12").toList) ||
  endsWithStr baseLower ((".pfx").toList) ||
  endsWithStr baseLower ((".swp").toList) || endsWithStr baseLower ((".swo").toList) ||
  ((splitSlash rel).filter (fun seg => !seg.isEmpty)).any
    (fun seg => excludedDirNames.contains seg)

/-- The filter is the fixed pattern list plus the dot-prefixed-directory rule. -/
theorem shouldExcludePath_eq (rel : Str) (isDir : Bool) :
    shouldExcludePath rel isDir =
      (fixedPatternMatch rel || (isDir && (('.') :: []).isPrefixOf (posixBasename rel))) := by
  simp [shouldExcludePath, fixedPatternMatch, Bool.or_assoc]

/-- Is a char in `[a-z0-9]` (first class of the camel-case regex). -/
def isLowerDigit (c : Char) : Bool :=
  (('a') ≤ c && c ≤ ('z')) || (('0') ≤ c && c ≤ ('9'))

/-- Is a char in `[A-Z]` (second class of the camel-case regex). -/
def isUpperAscii (c : Char) : Bool := ('A') ≤ c && c ≤ ('Z')

/-- `replace(/([a-z0-9])([A-Z])/g, '$1-$2')`: insert a dash between a
lower/digit char and a following uppercase char.  The regex's matches never
overlap (an uppercase char is not in the first class), so a pairwise scan is
equivalent to the global replace. -/
def camelDash : Str → Str
  | [] => []
  | [c] => [c]
  | a :: b :: rest =>
    if isLowerDigit a && isUpperAscii b then a :: ('-') :: camelDash (b :: rest)
    else a :: camelDash (b :: rest)

/-- Helper for `collapseNonAlnum`: the flag records whether the scanner is
inside a non-alphanumeric run whose dash was already emitted. -/
def collapseNonAlnumAux : Bool → Str → Str
  | _, [] => []
  | inRun, c :: cs =>
    if isLowerDigit c then c :: collapseNonAlnumAux false cs
    else if inRun then collapseNonAlnumAux true cs
    else ('-') :: collapseNonAlnumAux true cs

/-- `replace(/[^a-z0-9]+/g, '-')`: collapse each maximal run of
non-alphanumeric chars into a single dash (input already lower-cased). -/
def collapseNonAlnum (s : Str) : Str := collapseNonAlnumAux false s

/-- `replace(/^-+|-+$/g, '')`: strip leading and trailing dashes. -/
def stripDashes (s : Str) : Str :=
  ((s.dropWhile (fun c => c == '-')).reverse.dropWhile (fun c => c == '-')).reverse

/-- `slugifyGroupName` from build-skills.mjs. -/
def slugifyGroupName (groupName : Str) : Str :=
  let withDashes := camelDash groupName
  stripDashes (collapseNonAlnum (lowerStr (jsTrim withDashes)))

example : slugifyGroupName (("ProductManagement").toList) = ("product-management").toList := by
  decide

example : slugifyGroupName (("Foo Bar ").toList) = ("foo-bar").toList := by decide

example : shouldExcludePath ((".gitkeep").toList) false = false := by decide

example : shouldExcludePath ((".github").toList) true = true := by decide

example : shouldExcludePath (("a/.git/config").toList) false = true := by decide

example : shouldExcludePath (("a/b/secret.PEM").toList) false = true := by decide

example : truncate (some (("hello").toList)) (.fin 5) = ("hello").toList := by decide

example : truncate (some (("hello!").toList)) (.fin 5) = ("hell…").toList := by decide

/-! ### Path resolution model (`node:path`, POSIX flavour) -/

/-- `path.isAbsolute` on a POSIX path string. -/
def strIsAbsolute (s : Str) : Bool :=
  match s with
  | c :: _ => c == '/'
  | [] => false

/-- Normalise a segment sequence: drop empty and `.` segments, let `..` pop
the previous segment (an extra `..` above the root is discarded, exactly as
`path.resolve` does for absolute paths). -/
def normSegs (segs : List Str) : List Str :=
  segs.foldl
    (fun acc seg =>
      if seg.isEmpty then acc
      else if seg == ('.') :: [] then acc
      else if seg == ('.') :: ('.') :: [] then acc.dropLast
      else acc ++ [seg]) []

/-- `path.resolve(base, rel)` where `base` is an already-normalised absolute
path given as its segment list. -/
def resolveAbs (base : List Str) (rel : Str) : List Str :=
  if strIsAbsolute rel then normSegs (splitSlash rel) else normSegs (base ++ splitSlash rel)

/-- Length of the common segment prefix of two paths. -/
def commonPrefixLen : List Str → List Str → Nat
  | a :: as, b :: bs => if a == b then commonPrefixLen as bs + 1 else 0
  | _, _ => 0

/-- Join segments with `'/'`. -/
def joinSlash (parts : List Str) : Str := List.intercalate (('/') :: []) parts

/-- `path.relative(from, to)` for two absolute normalised segment paths:
walk up out of the non-shared part of `from`, then down into `to`. -/
def relPath (fromSegs toSegs : List Str) : Str :=
  let c := commonPrefixLen fromSegs toSegs
  joinSlash (List.replicate (fromSegs.length - c) (('.') :: ('.') :: []) ++ toSegs.drop c)

/-- The output-boundary rejection test of build-skills.mjs (and
`assertInsideDir` of build-definitions.mjs): the target escapes the base
directory iff `path.relative(base, target)` is absolute, equals `..`, or
starts with `../`. -/
def escapesDir (baseDir : List Str) (targetAbs : List Str) : Bool :=
  let rel := relPath baseDir targetAbs
  strIsAbsolute rel || rel == ('.') :: ('.') :: [] || (("../").toList).isPrefixOf rel

example : escapesDir [("d").toList] (resolveAbs [("d").toList] (("../evil.zip").toList)) = true := by
  decide

example : escapesDir [("d").toList] (resolveAbs [("d").toList] (("a.zip").toList)) = false := by
  decide

/-! ### Skills pipeline (build-skills.mjs) -/

/-- `detectSkillContents` result for one skill directory. -/
structure Contents where
  has_scripts : Bool
  has_references : Bool
  has_license : Bool
deriving DecidableEq, Repr

/-- The frontmatter key/value data of a `SKILL.md`, after gray-matter parsing:
each field is present iff it was a string in the YAML (the script's
`typeof === 'string'` checks treat wrong-typed fields as absent). -/
structure Frontmatter where
  nameField : Option Str
  descField : Option Str
deriving DecidableEq, Repr

/-- One skill-unit candidate directory as found on disk (a subdirectory that
contains `SKILL.md`), together with the outcomes the filesystem would give
the script for it: the frontmatter parse result (`none` = read/parse threw),
whether `countIncludedFiles` succeeds and its value, whether the ZIP write
succeeds and the resulting byte size, and the `detectSkillContents` flags. -/
structure SkillSrc where
  dirName : Str
  frontmatter : Option Frontmatter
  countOk : Bool
  fileCountOnDisk : Nat
  zipWriteOk : Bool
  zipSizeOnDisk : Nat
  contents : Contents
deriving DecidableEq, Repr

/-- A group directory (immediate subdirectory of the skills root) with its
skill-unit candidates. -/
structure GroupSrc where
  name : Str
  skills : List SkillSrc
deriving DecidableEq, Repr

/-- `parseSkillFrontmatter`: returns the display name, the description, and
the number of `console.warn` calls it made (2 on a parse failure, 1 on a
missing/empty description). -/
def parseSkillFrontmatter (fm : Option Frontmatter) (fallbackName : Str) : Str × Str × Nat :=
  match fm with
  | none => (fallbackName, [], 2)
  | some f =>
    let name :=
      match f.nameField with
      | some s => let t := jsTrim s; if t.isEmpty then fallbackName else t
      | none => fallbackName
    let description :=
      match f.descField with
      | some s => jsTrim s
      | none => []
    (name, description, if description.isEmpty then 1 else 0)

/-- One manifest skill record.  The public and the internal variant use the
same seven keys; they differ only in the description value. -/
structure SkillEntry where
  name : Str
  description : Str
  group : Str
  download_url : Str
  zip_size_bytes : Nat
  file_count : Nat
  contents : Contents
deriving DecidableEq, Repr

/-- The mutable run state of the skills `main` loop: the duplicate-identity
set, the run counters, the list of ZIP paths at which a write was attempted,
and the current group's accumulated public/internal skill records. -/
structure SkState where
  seen : List Str
  errorCount : Nat
  packagedCount : Nat
  warnCount : Nat
  totalZipBytes : Nat
  writes : List (List Str)
  curPub : List SkillEntry
  curInt : List SkillEntry
deriving DecidableEq, Repr

/-- The body of the `for (const s of skillDirs)` loop of build-skills.mjs:
parse frontmatter, reject duplicate folder identities, resolve the ZIP output
path and reject it if it escapes the downloads directory, package (recording
failures as zero size), and push the public/internal records. -/
def processSkill (downloadsDir : List Str) (groupSlug : Str) (st : SkState)
    (s : SkillSrc) : SkState :=
  let pr := parseSkillFrontmatter s.frontmatter s.dirName
  let skillName := pr.1
  let fullDescription := pr.2.1
  let st := { st with warnCount := st.warnCount + pr.2.2 }
  if st.seen.contains s.dirName then
    { st with warnCount := st.warnCount + 1, errorCount := st.errorCount + 1 }
  else
    let st := { st with seen := st.seen ++ [s.dirName] }
    let zipOutAbs := resolveAbs downloadsDir (s.dirName ++ (".zip").toList)
    if escapesDir downloadsDir zipOutAbs then
      { st with warnCount := st.warnCount + 1, errorCount := st.errorCount + 1 }
    else
      let res : SkState × Nat × Nat :=
        if s.countOk then
          let st := { st with writes := st.writes ++ [zipOutAbs] }
          if s.zipWriteOk then
            ({ st with totalZipBytes := st.totalZipBytes + s.zipSizeOnDisk,
                       packagedCount := st.packagedCount + 1 },
             s.zipSizeOnDisk, s.fileCountOnDisk)
          else
            ({ st with errorCount := st.errorCount + 1, warnCount := st.warnCount + 2 },
             0, s.fileCountOnDisk)
        else
          ({ st with errorCount := st.errorCount + 1, warnCount := st.warnCount + 2 }, 0, 0)
      let st := res.1
      let zipSizeBytes := res.2.1
      let fileCount := res.2.2
      let skillPublic : SkillEntry :=
        { name := skillName,
          description := truncate (some fullDescription) (.fin PUBLIC_DESC_MAX_CHARS),
          group := groupSlug,
          download_url := ("/skills/downloads/").toList ++ s.dirName ++ (".zip").toList,
          zip_size_bytes := zipSizeBytes,
          file_count := fileCount,
          contents := s.contents }
      let skillInternal : SkillEntry :=
        { name := skillName,
          description := fullDescription,
          group := groupSlug,
          download_url := ("/skills/downloads/").toList ++ s.dirName ++ (".zip").toList,
          zip_size_bytes := zipSizeBytes,
          file_count := fileCount,
          contents := s.contents }
      { st with curPub := st.curPub ++ [skillPublic], curInt := st.curInt ++ [skillInternal] }

/-- Character comparison via code points. -/
def charCompare (a b : Char) : Ordering := compare a.val b.val

/-- Lexicographic string comparison. -/
def strCompare : Str → Str → Ordering
  | [], [] => .eq
  | [], _ :: _ => .lt
  | _ :: _, [] => .gt
  | a :: as, b :: bs =>
    match charCompare a b with
    | .eq => strCompare as bs
    | o => o

/-- `a.localeCompare(b, undefined, { sensitivity: 'base' })`: case-insensitive
comparison, modelled as lexicographic comparison of the lower-cased strings. -/
def ciCompare (a b : Str) : Ordering := strCompare (lowerStr a) (lowerStr b)

/-- Insert into a sorted list, after all elements not greater (so that the
overall sort is stable, as JS `Array.prototype.sort` is). -/
def insertSorted (cmp : α → α → Ordering) (a : α) : List α → List α
  | [] => [a]
  | b :: bs => if cmp a b = .lt then a :: b :: bs else b :: insertSorted cmp a bs

/-- Stable sort by a comparator (JS `Array.prototype.sort(cmp)` for the
comparators the scripts use). -/
def stableSortBy (cmp : α → α → Ordering) (l : List α) : List α :=
  l.foldl (fun acc a => insertSorted cmp a acc) []

/-- `sortAlphaCaseInsensitive` / the scripts' by-name `.sort` calls. -/
def sortByName (name : α → Str) (l : List α) : List α :=
  stableSortBy (fun a b => ciCompare (name a) (name b)) l

/-- One manifest group record (`groupOutPublic` / `groupOutInternal`). -/
structure GroupOut where
  name : Str
  slug : Str
  skill_count : Nat
  skills : List SkillEntry
deriving DecidableEq, Repr

/-- The skills manifest root record (public and internal share this shape). -/
structure SkillsManifest where
  version : Str
  generated_at : Str
  base_url : Str
  total_skills : Nat
  groups : List GroupOut
deriving DecidableEq, Repr

/-- `VERSION` (both scripts). -/
def VERSION : Str := ("1.0.0").toList

/-- `BASE_URL` (both scripts). -/
def BASE_URL : Str := ("https://www.llmspec.dev").toList

/-- The body of the `for (const groupName of groupNames)` loop: process the
group's (sorted) skill candidates, sort the collected records by display
name, recompute `skill_count` from the sorted arrays, and emit the group's
public and internal records. -/
def processGroup (downloadsDir : List Str) (st : SkState) (g : GroupSrc) :
    SkState × GroupOut × GroupOut :=
  let groupSlug := slugifyGroupName g.name
  let skillDirs := sortByName SkillSrc.dirName g.skills
  let st0 := { st with curPub := [], curInt := [] }
  let st1 := skillDirs.foldl (processSkill downloadsDir groupSlug) st0
  let pubSkills := sortByName SkillEntry.name st1.curPub
  let intSkills := sortByName SkillEntry.name st1.curInt
  (st1,
   { name := g.name, slug := groupSlug, skill_count := pubSkills.length, skills := pubSkills },
   { name := g.name, slug := groupSlug, skill_count := intSkills.length, skills := intSkills })

/-- Run the group loop over the (already sorted) group list, collecting the
emitted group records in order. -/
def runGroups (downloadsDir : List Str) (st : SkState) :
    List GroupSrc → SkState × List GroupOut × List GroupOut
  | [] => (st, [], [])
  | g :: gs =>
    let r := processGroup downloadsDir st g
    let rest := runGroups downloadsDir r.1 gs
    (rest.1, r.2.1 :: rest.2.1, r.2.2 :: rest.2.2)

/-- The initial run state of the skills `main`. -/
def initialSkState : SkState :=
  { seen := [], errorCount := 0, packagedCount := 0, warnCount := 0,
    totalZipBytes := 0, writes := [], curPub := [], curInt := [] }

/-- `main` of build-skills.mjs on a present skills root: sort the group
directories case-insensitively, run the group loop, and assemble the public
and internal manifests with `total_skills` recomputed by folding over the
final group list.  Returns (public manifest, internal manifest, final state). -/
def buildSkillsManifests (downloadsDir : List Str) (corpus : List GroupSrc)
    (generatedAt : Str) : SkillsManifest × SkillsManifest × SkState :=
  let groupsSorted := sortByName GroupSrc.name corpus
  let r := runGroups downloadsDir initialSkState groupsSorted
  let pubGroups := r.2.1
  let intGroups := r.2.2
  ({ version := VERSION, generated_at := generatedAt, base_url := BASE_URL,
     total_skills := pubGroups.foldl (fun acc g => acc + g.skill_count) 0,
     groups := pubGroups },
   { version := VERSION, generated_at := generatedAt, base_url := BASE_URL,
     total_skills := intGroups.foldl (fun acc g => acc + g.skill_count) 0,
     groups := intGroups },
   r.1)

/-- `main` of build-skills.mjs including its top-level try/catch: a missing
skills root throws, which the catch turns into process exit code 1 with no
manifests written; otherwise the build runs and the process exits 0. -/
def runSkills (skillsRootExists : Bool) (downloadsDir : List Str)
    (corpus : List GroupSrc) (generatedAt : Str) :
    Nat × Option (SkillsManifest × SkillsManifest × SkState) :=
  if skillsRootExists then (0, some (buildSkillsManifests downloadsDir corpus generatedAt))
  else (1, none)

/-! ### Definitions pipeline (build-definitions.mjs) -/

/-- `ALLOWED_STATUSES`. -/
def ALLOWED_STATUSES : List Str := [("alpha").toList, ("beta").toList, ("deprecated").toList]

/-- Trim, then apply JS truthiness (`x || undefined`): empty becomes absent. -/
def trimNonempty : Option Str → Option Str
  | some s => let t := jsTrim s; if t.isEmpty then none else some t
  | none => none

/-- The raw `provider.toml` key/value data after the `asString`/`asStringArray`
type filters (a wrong-typed field behaves exactly like an absent one, so both
are `none` here). -/
structure RawProviderToml where
  name : Option Str
  env : Option (List Str)
  npm : Option Str
  doc : Option Str
  api : Option Str
deriving DecidableEq, Repr

/-- The normalized provider record (`normalizeProviderToml` result). -/
structure ProviderMeta where
  id : Str
  name : Str
  env : List Str
  npm : Str
  doc : Str
  api : Option Str
deriving DecidableEq, Repr

/-- `normalizeProviderToml(providerId, providerToml, ...)`; the script passes
`providerToml || {}`, so a missing or unparseable file is `none` here. -/
def normalizeProviderToml (providerId : Str) (t : Option RawProviderToml) : ProviderMeta :=
  { id := providerId,
    name := (trimNonempty (t.bind RawProviderToml.name)).getD providerId,
    env := (t.bind RawProviderToml.env).getD [],
    npm := ((t.bind RawProviderToml.npm).map jsTrim).getD [],
    doc := ((t.bind RawProviderToml.doc).map jsTrim).getD [],
    api := trimNonempty (t.bind RawProviderToml.api) }

/-- The raw `[cost]` table of a model TOML.  The script keeps the whole table
for the internal record; only the `input`/`output` entries are ever read (by
the public projection), so only those are modelled. -/
structure RawCost where
  input : Option JNum
  output : Option JNum
deriving DecidableEq, Repr

/-- The raw `[limit]` table (entries absent or wrong-typed are `none`;
non-finite numbers are represented inside `JNum`). -/
structure RawLimit where
  context : Option JNum
  output : Option JNum
  input : Option JNum
deriving DecidableEq, Repr

/-- The raw `[modalities]` table. -/
structure RawModalities where
  input : Option (List Str)
  output : Option (List Str)
deriving DecidableEq, Repr

/-- A parsed model TOML document after the `asString`/`asBoolean`/
`isPlainObject` type filters (wrong-typed = absent = `none`). -/
structure ModelToml where
  name : Option Str
  family : Option Str
  release_date : Option Str
  last_updated : Option Str
  knowledge : Option Str
  status : Option Str
  description : Option Str
  attachment : Option Bool
  reasoning : Option Bool
  tool_call : Option Bool
  open_weights : Option Bool
  temperature : Option Bool
  structured_output : Option Bool
  cost : Option RawCost
  limit : Option RawLimit
  modalities : Option RawModalities
deriving DecidableEq, Repr

/-- The normalized `limit` object: `context`/`output` are always-present keys
whose value may be `null` (`?? null`); `input` is present only when given. -/
structure LimitOut where
  context : Option Int
  output : Option Int
  input : Option Int
deriving DecidableEq, Repr

/-- The normalized `modalities` object. -/
structure ModalitiesOut where
  input : List Str
  output : List Str
deriving DecidableEq, Repr

/--
A normalized internal model record (`normalizeModelToml` result).  An `Option`
field models a key whose value may be `undefined`; `JSON.stringify` omits such
keys, so the key is present in the emitted internal catalog iff the option is
`some` (for `release_date`/`last_updated` the key is always present, `none`
rendering as `null`).
-/
structure ModelInternal where
  id : Str
  name : Str
  family : Option Str
  provider : Str
  release_date : Option Str
  last_updated : Option Str
  attachment : Bool
  reasoning : Bool
  tool_call : Bool
  open_weights : Bool
  temperature : Option Bool
  structured_output : Option Bool
  knowledge : Option Str
  status : Option Str
  description : Option Str
  cost : Option RawCost
  limit : LimitOut
  modalities : ModalitiesOut
deriving DecidableEq, Repr

/-- `normalizeModelToml`. -/
def normalizeModelToml (providerId modelId : Str) (t : ModelToml) : ModelInternal :=
  let nameRaw := t.name.map jsTrim
  let statusRaw := t.status.map (fun s => lowerStr (jsTrim s))
  { id := modelId,
    name := match nameRaw with
            | some s => if s.isEmpty then modelId else s
            | none => modelId,
    family := trimNonempty t.family,
    provider := providerId,
    release_date := trimNonempty t.release_date,
    last_updated := trimNonempty t.last_updated,
    attachment := t.attachment.getD false,
    reasoning := t.reasoning.getD false,
    tool_call := t.tool_call.getD false,
    open_weights := t.open_weights.getD false,
    temperature := t.temperature,
    structured_output := t.structured_output,
    knowledge := trimNonempty t.knowledge,
    status := match statusRaw with
              | some s => if ALLOWED_STATUSES.contains s then some s else none
              | none => none,
    description := trimNonempty t.description,
    cost := t.cost,
    limit := { context := jAsNumber (t.limit.bind RawLimit.context),
               output := jAsNumber (t.limit.bind RawLimit.output),
               input := jAsNumber (t.limit.bind RawLimit.input) },
    modalities := { input := (t.modalities.bind RawModalities.input).getD [],
                    output := (t.modalities.bind RawModalities.output).getD [] } }

/-- The public cost pair: only `{ input, output }`, each present when finite. -/
structure CostPublic where
  input : Option Int
  output : Option Int
deriving DecidableEq, Repr

/-- A public model record.  As for `ModelInternal`, an `Option` field models a
conditionally present key (`none` = key omitted), except
`release_date`/`last_updated`, always present with `null` for `none`. -/
structure ModelPublic where
  id : Str
  name : Str
  family : Option Str
  provider : Str
  release_date : Option Str
  last_updated : Option Str
  attachment : Bool
  reasoning : Bool
  tool_call : Bool
  open_weights : Bool
  temperature : Option Bool
  structured_output : Option Bool
  knowledge : Option Str
  status : Option Str
  description : Option Str
  modalities : ModalitiesOut
  limit : LimitOut
  cost : Option CostPublic
deriving DecidableEq, Repr

/-- JS truthiness of an optional string (`undefined` and `''` are falsy). -/
def isTruthyStr : Option Str → Bool
  | some s => !s.isEmpty
  | none => false

/-- `toPublicModel(modelInternal)`: drop falsy optional strings, truncate the
description, and reduce `cost` to the `{ input, output }` pair (omitted when
neither entry is a finite number). -/
def toPublicModel (m : ModelInternal) : ModelPublic :=
  let publicCost : Option CostPublic :=
    match m.cost with
    | none => none
    | some c =>
      let i := jAsNumber c.input
      let o := jAsNumber c.output
      if i.isNone && o.isNone then none else some { input := i, output := o }
  { id := m.id,
    name := m.name,
    family := if isTruthyStr m.family then m.family else none,
    provider := m.provider,
    release_date := m.release_date,
    last_updated := m.last_updated,
    attachment := m.attachment,
    reasoning := m.reasoning,
    tool_call := m.tool_call,
    open_weights := m.open_weights,
    temperature := m.temperature,
    structured_output := m.structured_output,
    knowledge := if isTruthyStr m.knowledge then m.knowledge else none,
    status := if isTruthyStr m.status then m.status else none,
    description := if isTruthyStr m.description then
        some (truncate m.description (.fin PUBLIC_DESC_MAX_CHARS)) else none,
    modalities := m.modalities,
    limit := m.limit,
    cost := publicCost }

/-- A filesystem subtree under a provider's `models/` directory.  A file node
carries the TOML parse result its bytes would produce (`none` = parse error);
`readTomlFile` is only ever applied to the discovered `.toml` files. -/
inductive FsTree where
  | file (name : Str) (toml : Option ModelToml) : FsTree
  | dir (name : Str) (children : List FsTree) : FsTree

/-- Relative-path join used by the walkers:
`relFromRoot ? relFromRoot + '/' + name : name`. -/
def joinRel (rel name : Str) : Str := if rel.isEmpty then name else rel ++ ('/') :: name

/-- The DFS of `listModelTomlFiles`: apply `shouldExcludePath` to every entry
(pruning whole excluded directories), keep regular files whose lower-cased
name ends in `.toml`, and record their root-relative paths in DFS order. -/
def walkModels (rel : Str) : List FsTree → List (Str × Option ModelToml)
  | [] => []
  | .file n t :: rest =>
    (if shouldExcludePath (joinRel rel n) false then []
     else if endsWithStr (lowerStr n) ((".toml").toList) then [(joinRel rel n, t)] else [])
    ++ walkModels rel rest
  | .dir n cs :: rest =>
    (if shouldExcludePath (joinRel rel n) true then [] else walkModels (joinRel rel n) cs)
    ++ walkModels rel rest
termination_by ts => sizeOf ts
decreasing_by all_goals (simp; try omega)

/-- `relPosix.replace(/\.toml$/i, '')`. -/
def stripTomlExt (rel : Str) : Str :=
  if endsWithStr (lowerStr rel) ((".toml").toList) then rel.take (rel.length - 5) else rel

/-- One provider directory as found on disk: its folder name, the
`provider.toml` data (`none` when the file is missing or unparseable — the
script feeds `{}` to normalization in both cases), whether `logo.svg` exists,
and the `models/` subtree (`none` when there is no `models/` directory). -/
structure ProviderSrc where
  dirName : Str
  providerToml : Option RawProviderToml
  hasLogo : Bool
  modelsTree : Option (List FsTree)

/-- The internal provider record (`providerOutInternal`). -/
structure ProviderOutI where
  id : Str
  name : Str
  env : List Str
  npm : Str
  doc : Str
  api : Option Str
  has_logo : Bool
  model_count : Nat
  models : List ModelInternal
deriving DecidableEq, Repr

/-- The public provider record (`providerOutPublic`): same keys minus `env`,
with models projected through `toPublicModel`. -/
structure ProviderOutP where
  id : Str
  name : Str
  npm : Str
  doc : Str
  api : Option Str
  has_logo : Bool
  model_count : Nat
  models : List ModelPublic
deriving DecidableEq, Repr

/-- Build `providerOutInternal` from the normalized pieces. -/
def mkProviderInternal (meta : ProviderMeta) (hasLogo : Bool)
    (models : List ModelInternal) : ProviderOutI :=
  { id := meta.id, name := meta.name, env := meta.env, npm := meta.npm, doc := meta.doc,
    api := meta.api, has_logo := hasLogo, model_count := models.length, models := models }

/-- Build `providerOutPublic` from the same normalized pieces. -/
def mkProviderPublic (meta : ProviderMeta) (hasLogo : Bool)
    (models : List ModelInternal) : ProviderOutP :=
  { id := meta.id, name := meta.name, npm := meta.npm, doc := meta.doc,
    api := meta.api, has_logo := hasLogo, model_count := models.length,
    models := models.map toPublicModel }

/-- The body of the `for (const providerId of providerIds)` loop: normalize
the provider metadata, discover and sort the model TOML files, normalize the
parseable ones (unparseable files are skipped with a warning), sort the
models by display name, and emit both provider records. -/
def buildProvider (p : ProviderSrc) : ProviderOutI × ProviderOutP :=
  let meta := normalizeProviderToml p.dirName p.providerToml
  let modelFiles :=
    match p.modelsTree with
    | none => []
    | some ts => sortByName Prod.fst (walkModels [] ts)
  let modelsRaw := modelFiles.foldl
    (fun acc f =>
      match f.2 with
      | none => acc
      | some mt => acc ++ [normalizeModelToml p.dirName (stripTomlExt f.1) mt]) []
  let modelsInternal := sortByName ModelInternal.name modelsRaw
  (mkProviderInternal meta p.hasLogo modelsInternal,
   mkProviderPublic meta p.hasLogo modelsInternal)

/-- The provider loop: collect both record lists and accumulate `modelTotal`
(`modelTotal += modelsInternal.length`, tracked incrementally by the script). -/
def buildDefsCore : List ProviderSrc → List ProviderOutI × List ProviderOutP × Nat
  | [] => ([], [], 0)
  | p :: rest =>
    let pr := buildProvider p
    let r := buildDefsCore rest
    (pr.1 :: r.1, pr.2 :: r.2.1, pr.1.model_count + r.2.2)

/-- The public definitions manifest root. -/
structure DefsManifestP where
  version : Str
  generated_at : Str
  base_url : Str
  total_providers : Nat
  total_models : Nat
  providers : List ProviderOutP
deriving DecidableEq, Repr

/-- The internal definitions catalog root (same keys, internal providers). -/
structure DefsManifestI where
  version : Str
  generated_at : Str
  base_url : Str
  total_providers : Nat
  total_models : Nat
  providers : List ProviderOutI
deriving DecidableEq, Repr

/-- `main` of build-definitions.mjs on a present providers root: list the
non-excluded provider directories sorted case-insensitively, run the provider
loop, sort both provider lists by display name, and set the totals
(`total_providers` from the final lists, `total_models` from the incremental
`modelTotal`).  Returns (public manifest, internal catalog). -/
def buildDefsManifests (corpus : List ProviderSrc) (generatedAt : Str) :
    DefsManifestP × DefsManifestI :=
  let providerIds := sortByName ProviderSrc.dirName
    (corpus.filter (fun p => !(shouldExcludePath p.dirName true)))
  let core := buildDefsCore providerIds
  let provsI := sortByName ProviderOutI.name core.1
  let provsP := sortByName ProviderOutP.name core.2.1
  ({ version := VERSION, generated_at := generatedAt, base_url := BASE_URL,
     total_providers := provsP.length, total_models := core.2.2, providers := provsP },
   { version := VERSION, generated_at := generatedAt, base_url := BASE_URL,
     total_providers := provsI.length, total_models := core.2.2, providers := provsI })

/-- `main` of build-definitions.mjs including its top-level try/catch.  A
missing providers root is handled by an early `return` inside `main` (after
printing an error): nothing is written and, since nothing throws,
`process.exitCode` keeps its default — the process exits 0. -/
def runDefinitions (providersRootExists : Bool) (corpus : List ProviderSrc)
    (generatedAt : Str) : Nat × Option (DefsManifestP × DefsManifestI) :=
  if providersRootExists then (0, some (buildDefsManifests corpus generatedAt))
  else (0, none)

/-! ### Helper lemmas about the stable sort -/

theorem insertSorted_perm (cmp : α → α → Ordering) (a : α) (l : List α) :
    List.Perm (insertSorted cmp a l) (a :: l) := by
  induction l with
  | nil => exact List.Perm.refl _
  | cons b bs ih =>
    unfold insertSorted
    split
    · exact List.Perm.refl _
    · exact (ih.cons b).trans (List.Perm.swap a b bs)

theorem foldl_insertSorted_perm (cmp : α → α → Ordering) (l acc : List α) :
    List.Perm (l.foldl (fun acc a => insertSorted cmp a acc) acc) (acc ++ l) := by
  induction l generalizing acc with
  | nil => simp
  | cons x xs ih =>
    simp only [List.foldl_cons]
    exact ((ih (insertSorted cmp x acc)).trans
      (((insertSorted_perm cmp x acc).append_right xs).trans List.perm_middle.symm))

theorem stableSortBy_perm (cmp : α → α → Ordering) (l : List α) :
    List.Perm (stableSortBy cmp l) l := by
  simpa using foldl_insertSorted_perm cmp l []

theorem sortByName_perm (name : α → Str) (l : List α) : List.Perm (sortByName name l) l :=
  stableSortBy_perm _ l

theorem all_of_perm {l₁ l₂ : List α} (h : List.Perm l₁ l₂) (p : α → Bool) :
    l₁.all p = l₂.all p := by
  cases hb : l₂.all p with
  | true =>
    rw [List.all_eq_true] at hb ⊢
    exact fun x hx => hb x (h.mem_iff.mp hx)
  | false =>
    by_contra hc
    rw [Bool.not_eq_false, List.all_eq_true] at hc
    rw [← Bool.not_eq_true, List.all_eq_true] at hb
    exact hb fun x hx => hc x (h.mem_iff.mpr hx)

theorem sum_map_of_perm {l₁ l₂ : List α} (h : List.Perm l₁ l₂) (f : α → Nat) :
    (l₁.map f).sum = (l₂.map f).sum :=
  (h.map f).sum_eq

theorem foldl_add_eq_sum_map (f : α → Nat) (l : List α) (n : Nat) :
    l.foldl (fun acc a => acc + f a) n = n + (l.map f).sum := by
  induction l generalizing n with
  | nil => simp
  | cons x xs ih => simp [ih, Nat.add_assoc]

/-! ### Claim theorems -/

/--
C2: for a fixed corpus (fixed disk contents) and downloads directory, the
four manifests a run emits (skills public/internal, definitions
public/internal) depend on nothing but the corpus and the timestamp, and the
timestamp influences only the `generated_at` field: overwriting that one
field with a fixed value makes the manifests of two runs with different
timestamps equal.
-/
theorem manifests_deterministic_except_generated_at (dl : List Str)
    (sc : List GroupSrc) (dc : List ProviderSrc) (t1 t2 : Str) :
    ({ (buildSkillsManifests dl sc t1).1 with generated_at := [] } =
      { (buildSkillsManifests dl sc t2).1 with generated_at := [] }) ∧
    ({ (buildSkillsManifests dl sc t1).2.1 with generated_at := [] } =
      { (buildSkillsManifests dl sc t2).2.1 with generated_at := [] }) ∧
    ({ (buildDefsManifests dc t1).1 with generated_at := [] } =
      { (buildDefsManifests dc t2).1 with generated_at := [] }) ∧
    ({ (buildDefsManifests dc t1).2 with generated_at := [] } =
      { (buildDefsManifests dc t2).2 with generated_at := [] }) :=
  ⟨rfl, rfl, rfl, rfl⟩

/--
C6 counterexample: the claim says a missing corpus root always makes the
process exit non-zero.  For the definitions pipeline this is false: with the
providers root missing, `main` prints an error and returns early, nothing is
written, no exception reaches the top-level catch, and the process exit code
stays 0.
-/
theorem missing_defs_root_exits_zero : runDefinitions false [] [] = (0, none) := rfl

/--
C6 (amended): a missing skills root is fatal — the skills pipeline throws,
writes nothing, and the process exits 1; a missing definitions providers root
aborts the definitions pipeline (nothing is written) but is treated as a
skip: the process exits 0.
-/
theorem missing_root_behaviour (dl : List Str) (sc : List GroupSrc)
    (dc : List ProviderSrc) (t : Str) :
    runSkills false dl sc t = (1, none) ∧ runDefinitions false dc t = (0, none) :=
  ⟨rfl, rfl⟩

/--
C1: whenever the ZIP destination path resolved from a skill unit's folder
identity fails the lexical containment check against the configured downloads
directory, the loop body rejects the unit before any write: no ZIP write is
attempted (at the escaping path or anywhere else), the unit's records are
pushed into neither manifest, the packaged counter is untouched, and the
error counter is incremented by one.  (If the unit was already rejected as a
duplicate the same conclusions hold.)
-/
theorem escaping_zip_path_rejected (dl : List Str) (slug : Str) (st : SkState)
    (s : SkillSrc)
    (h : escapesDir dl (resolveAbs dl (s.dirName ++ (".zip").toList)) = true) :
    (processSkill dl slug st s).writes = st.writes ∧
    (processSkill dl slug st s).curPub = st.curPub ∧
    (processSkill dl slug st s).curInt = st.curInt ∧
    (processSkill dl slug st s).packagedCount = st.packagedCount ∧
    (processSkill dl slug st s).errorCount = st.errorCount + 1 := by
  unfold processSkill
  simp only [String.toList] at h
  by_cases hdup : s.dirName ∈ st.seen
  · simp [hdup]
  · simp [hdup, h]

/-- Fixed state for the loop-body witnesses: one folder identity already seen. -/
def skStateSeenA : SkState :=
  { seen := [("a").toList], errorCount := 0, packagedCount := 0, warnCount := 0,
    totalZipBytes := 0, writes := [], curPub := [], curInt := [] }

/-- A well-formed skill source whose folder identity is the one already seen. -/
def skillSrcA : SkillSrc :=
  { dirName := ("a").toList,
    frontmatter := some { nameField := some (("N").toList), descField := some (("D").toList) },
    countOk := true, fileCountOnDisk := 1, zipWriteOk := true, zipSizeOnDisk := 5,
    contents := { has_scripts := false, has_references := false, has_license := false } }

/-- A skill source with a path-traversal folder identity. -/
def skillSrcEvil : SkillSrc :=
  { dirName := ("../evil").toList,
    frontmatter := some { nameField := some (("N").toList), descField := some (("D").toList) },
    countOk := true, fileCountOnDisk := 1, zipWriteOk := true, zipSizeOnDisk := 5,
    contents := { has_scripts := false, has_references := false, has_license := false } }

theorem escaping_zip_path_rejected_witness :
    (processSkill [("d").toList] (("g").toList) skStateSeenA skillSrcEvil).writes = [] ∧
    (processSkill [("d").toList] (("g").toList) skStateSeenA skillSrcEvil).curPub = [] ∧
    (processSkill [("d").toList] (("g").toList) skStateSeenA skillSrcEvil).curInt = [] ∧
    (processSkill [("d").toList] (("g").toList) skStateSeenA skillSrcEvil).packagedCount = 0 ∧
    (processSkill [("d").toList] (("g").toList) skStateSeenA skillSrcEvil).errorCount = 1 :=
  escaping_zip_path_rejected [("d").toList] (("g").toList) skStateSeenA skillSrcEvil (by decide)

/--
C4: a skill unit whose folder-derived identity was already seen in this run
is rejected by the loop body: the resulting state is the incoming state with
the error counter incremented by one and one extra warning (beyond any
frontmatter-parse warnings, which happen before the duplicate check) — in
particular no record is pushed into either manifest, no ZIP write is
attempted, and everything accumulated for earlier units is unchanged.
-/
theorem duplicate_identity_rejected (dl : List Str) (slug : Str) (st : SkState)
    (s : SkillSrc) (h : s.dirName ∈ st.seen) :
    processSkill dl slug st s =
      { st with
        errorCount := st.errorCount + 1,
        warnCount := st.warnCount + (parseSkillFrontmatter s.frontmatter s.dirName).2.2 + 1 } := by
  unfold processSkill
  simp [h]

theorem duplicate_identity_rejected_witness :
    processSkill [("d").toList] (("g").toList) skStateSeenA skillSrcA =
      { skStateSeenA with errorCount := 1, warnCount := 1 } :=
  duplicate_identity_rejected [("d").toList] (("g").toList) skStateSeenA skillSrcA (by decide)

/--
C3: for a relative path whose basename is dot-prefixed, the exclusion filter
excludes it unconditionally when it denotes a directory; when it denotes a
file it is excluded only if it matches one of the fixed
secret/credential/VCS/artifact patterns — never solely for being
dot-prefixed.
-/
theorem dot_prefix_file_vs_directory (rel : Str)
    (hdot : (('.') :: []).isPrefixOf (posixBasename rel) = true) :
    shouldExcludePath rel true = true ∧
    (fixedPatternMatch rel = false → shouldExcludePath rel false = false) := by
  constructor
  · rw [shouldExcludePath_eq]
    simp [hdot]
  · intro hpat
    rw [shouldExcludePath_eq]
    simp [hpat]

theorem dot_prefix_file_vs_directory_witness :
    shouldExcludePath ((".gitkeep").toList) true = true ∧
    shouldExcludePath ((".gitkeep").toList) false = false :=
  ⟨(dot_prefix_file_vs_directory ((".gitkeep").toList) (by decide)).1,
   (dot_prefix_file_vs_directory ((".gitkeep").toList) (by decide)).2 (by decide)⟩

/-- Unfolding lemma for `truncate` on a string and a finite budget. -/
theorem truncate_some_fin (s : Str) (z : Int) :
    truncate (some s) (.fin z) =
      (if z ≤ 0 then []
       else if (s.length : Int) ≤ z then s
       else if z = 1 then ['…'] else s.take (z - 1).toNat ++ ['…']) := rfl

/-- Branch lemma: over-budget truncation with a budget of at least 2. -/
theorem truncate_over (s : Str) (z : Int) (hz2 : 2 ≤ z)
    (hlen : ¬ ((s.length : Int) ≤ z)) :
    truncate (some s) (.fin z) = s.take (z - 1).toNat ++ ['…'] := by
  rw [truncate_some_fin, if_neg (by omega), if_neg hlen, if_neg (by omega)]

/-- Branch lemma: over-budget truncation with a budget of exactly 1. -/
theorem truncate_budget_one (s : Str) (hlen : ¬ ((s.length : Int) ≤ 1)) :
    truncate (some s) (.fin 1) = ['…'] := by
  rw [truncate_some_fin, if_neg (by omega), if_neg hlen, if_pos rfl]

/--
C8: with the fixed public budget of 500 characters, a description strictly
longer than the budget is truncated to exactly the first 499 characters
followed by a single ellipsis character — total length exactly 500 — while a
description at or under the budget is passed through unchanged.
-/
theorem public_description_truncation (s t : Str) :
    (500 < s.length →
      truncate (some s) (.fin PUBLIC_DESC_MAX_CHARS) = s.take 499 ++ ['…'] ∧
      (truncate (some s) (.fin PUBLIC_DESC_MAX_CHARS)).length = 500) ∧
    (t.length ≤ 500 → truncate (some t) (.fin PUBLIC_DESC_MAX_CHARS) = t) := by
  constructor
  · intro h
    have h1 : ¬ ((s.length : Int) ≤ PUBLIC_DESC_MAX_CHARS) := by
      simp only [PUBLIC_DESC_MAX_CHARS]
      exact_mod_cast Nat.not_le.mpr h
    have e : truncate (some s) (.fin PUBLIC_DESC_MAX_CHARS)
        = s.take (PUBLIC_DESC_MAX_CHARS - 1).toNat ++ ['…'] :=
      truncate_over s PUBLIC_DESC_MAX_CHARS (by decide) h1
    have e499 : (PUBLIC_DESC_MAX_CHARS - 1).toNat = 499 := by decide
    refine ⟨by rw [e, e499], ?_⟩
    rw [e, e499]
    simp only [List.length_append, List.length_take, List.length_singleton]
    omega
  · intro ht
    have h1 : ((t.length : Int) ≤ PUBLIC_DESC_MAX_CHARS) := by
      simp only [PUBLIC_DESC_MAX_CHARS]
      exact_mod_cast ht
    rw [truncate_some_fin, if_neg (by decide), if_pos h1]

theorem public_description_truncation_witness :
    (truncate (some (List.replicate 501 ('a'))) (.fin PUBLIC_DESC_MAX_CHARS)).length = 500 ∧
    truncate (some (("hi").toList)) (.fin PUBLIC_DESC_MAX_CHARS) = ("hi").toList :=
  ⟨((public_description_truncation (List.replicate 501 ('a')) (("hi").toList)).1
      (by rw [List.length_replicate]; decide)).2,
   (public_description_truncation (List.replicate 501 ('a')) (("hi").toList)).2 (by decide)⟩

/--
C10: `truncate` is total and clamps degenerate inputs.  A non-string value
yields the empty string for every budget; a non-finite budget and a
non-positive finite budget yield the empty string for every value; when the
value is a string and the budget is a finite positive integer, the result's
length never exceeds the budget — in particular a budget of exactly 1 applied
to an over-budget string yields the single ellipsis character.
-/
theorem truncate_total_and_clamped (v : Option Str) (m : JNum) (s : Str) :
    truncate none m = [] ∧
    (JNum.isFinite m = false → truncate v m = []) ∧
    (∀ z : Int, z ≤ 0 → truncate v (.fin z) = []) ∧
    (∀ z : Int, 0 < z → (truncate (some s) (.fin z)).length ≤ z.toNat) ∧
    (1 < s.length → truncate (some s) (.fin 1) = ['…']) := by
  refine ⟨rfl, ?_, ?_, ?_, ?_⟩
  · intro hm
    cases v with
    | none => rfl
    | some s0 =>
      cases m with
      | nan => rfl
      | inf => rfl
      | ninf => rfl
      | fin z => simp [JNum.isFinite] at hm
  · intro z hz
    cases v with
    | none => rfl
    | some s0 => rw [truncate_some_fin, if_pos hz]
  · intro z hz
    by_cases hlen : (s.length : Int) ≤ z
    · have e : truncate (some s) (.fin z) = s := by
        rw [truncate_some_fin, if_neg (by omega), if_pos hlen]
      rw [e]
      omega
    · by_cases h1 : z = 1
      · subst h1
        rw [truncate_budget_one s hlen]
        simp
      · rw [truncate_over s z (by omega) hlen]
        simp only [List.length_append, List.length_take, List.length_singleton]
        omega
  · intro h
    have h1 : ¬ ((s.length : Int) ≤ (1 : Int)) := by exact_mod_cast Nat.not_le.mpr h
    exact truncate_budget_one s h1

theorem truncate_total_and_clamped_witness :
    truncate none JNum.nan = [] ∧
    truncate (some (('a') :: ('b') :: [])) JNum.nan = [] ∧
    truncate (some (('a') :: ('b') :: [])) (.fin 0) = [] ∧
    (truncate (some (('a') :: ('b') :: [])) (.fin 1)).length ≤ (1 : Int).toNat ∧
    truncate (some (('a') :: ('b') :: [])) (.fin 1) = ['…'] :=
  ⟨(truncate_total_and_clamped (some (('a') :: ('b') :: [])) JNum.nan
      (('a') :: ('b') :: [])).1,
   (truncate_total_and_clamped (some (('a') :: ('b') :: [])) JNum.nan
      (('a') :: ('b') :: [])).2.1 (by decide),
   (truncate_total_and_clamped (some (('a') :: ('b') :: [])) JNum.nan
      (('a') :: ('b') :: [])).2.2.1 0 (by decide),
   (truncate_total_and_clamped (some (('a') :: ('b') :: [])) JNum.nan
      (('a') :: ('b') :: [])).2.2.2.1 1 (by decide),
   (truncate_total_and_clamped (some (('a') :: ('b') :: [])) JNum.nan
      (('a') :: ('b') :: [])).2.2.2.2 (by decide)⟩

/-! ### Field presence (JSON keys) of the emitted records -/

/-- Keys of the `skillPublic` object literal (build-skills.mjs). -/
def skillPublicRecordFields : List String :=
  ["name", "description", "group", "download_url", "zip_size_bytes", "file_count", "contents"]

/-- Keys of the `skillInternal` object literal (build-skills.mjs). -/
def skillInternalRecordFields : List String :=
  ["name", "description", "group", "download_url", "zip_size_bytes", "file_count", "contents"]

/-- Keys of the `groupOutPublic` object literal. -/
def groupPublicRecordFields : List String := ["name", "slug", "skill_count", "skills"]

/-- Keys of the `groupOutInternal` object literal. -/
def groupInternalRecordFields : List String := ["name", "slug", "skill_count", "skills"]

/-- Keys of the skills `manifestPublic` root literal. -/
def skillsManifestPublicFields : List String :=
  ["version", "generated_at", "base_url", "total_skills", "groups"]

/-- Keys of the skills `manifestInternal` root literal. -/
def skillsManifestInternalFields : List String :=
  ["version", "generated_at", "base_url", "total_skills", "groups"]

/-- Keys of the definitions `manifestPublic` root literal. -/
def defsManifestPublicFields : List String :=
  ["version", "generated_at", "base_url", "total_providers", "total_models", "providers"]

/-- Keys of the definitions `manifestInternal` root literal. -/
def defsManifestInternalFields : List String :=
  ["version", "generated_at", "base_url", "total_providers", "total_models", "providers"]

/-- JSON keys present on a serialized `providerOutInternal` record
(`JSON.stringify` drops keys whose value is `undefined`, and the `api` key is
spread in only when present). -/
def providerInternalFields (p : ProviderOutI) : List String :=
  ["id", "name", "env", "npm", "doc"] ++ (if p.api.isSome then ["api"] else [])
  ++ ["has_logo", "model_count", "models"]

/-- JSON keys present on a serialized `providerOutPublic` record. -/
def providerPublicFields (q : ProviderOutP) : List String :=
  ["id", "name", "npm", "doc"] ++ (if q.api.isSome then ["api"] else [])
  ++ ["has_logo", "model_count", "models"]

/-- JSON keys present on a serialized internal model record: the optional
keys are written as `x || undefined` / `x ?? undefined` in
`normalizeModelToml`, so they survive serialization iff the option is `some`;
`release_date`/`last_updated` are always present (`null` allowed). -/
def modelInternalFields (m : ModelInternal) : List String :=
  ["id", "name"] ++ (if m.family.isSome then ["family"] else [])
  ++ ["provider", "release_date", "last_updated",
      "attachment", "reasoning", "tool_call", "open_weights"]
  ++ (if m.temperature.isSome then ["temperature"] else [])
  ++ (if m.structured_output.isSome then ["structured_output"] else [])
  ++ (if m.knowledge.isSome then ["knowledge"] else [])
  ++ (if m.status.isSome then ["status"] else [])
  ++ (if m.description.isSome then ["description"] else [])
  ++ (if m.cost.isSome then ["cost"] else [])
  ++ ["limit", "modalities"]

/-- JSON keys present on a serialized public model record (`toPublicModel`
spreads each conditional key in only when its value is kept). -/
def modelPublicFields (m : ModelPublic) : List String :=
  ["id", "name"] ++ (if m.family.isSome then ["family"] else [])
  ++ ["provider", "release_date", "last_updated",
      "attachment", "reasoning", "tool_call", "open_weights"]
  ++ (if m.temperature.isSome then ["temperature"] else [])
  ++ (if m.structured_output.isSome then ["structured_output"] else [])
  ++ (if m.knowledge.isSome then ["knowledge"] else [])
  ++ (if m.status.isSome then ["status"] else [])
  ++ (if m.description.isSome then ["description"] else [])
  ++ ["modalities", "limit"]
  ++ (if m.cost.isSome then ["cost"] else [])

/-- Membership in a conditional singleton segment of a field list. -/
theorem mem_if_singleton {c : Prop} [Decidable c] {k x : String} :
    (k ∈ (if c then [x] else [])) ↔ c ∧ k = x := by
  split <;> simp_all

/-- If `toPublicModel` keeps the `family` key, the internal record has it. -/
theorem pub_family_imp (m : ModelInternal) :
    (toPublicModel m).family.isSome = true → m.family.isSome = true := by
  cases hf : m.family with
  | none => simp [toPublicModel, isTruthyStr, hf]
  | some s => simp [hf]

/-- If `toPublicModel` keeps the `knowledge` key, the internal record has it. -/
theorem pub_knowledge_imp (m : ModelInternal) :
    (toPublicModel m).knowledge.isSome = true → m.knowledge.isSome = true := by
  cases hf : m.knowledge with
  | none => simp [toPublicModel, isTruthyStr, hf]
  | some s => simp [hf]

/-- If `toPublicModel` keeps the `status` key, the internal record has it. -/
theorem pub_status_imp (m : ModelInternal) :
    (toPublicModel m).status.isSome = true → m.status.isSome = true := by
  cases hf : m.status with
  | none => simp [toPublicModel, isTruthyStr, hf]
  | some s => simp [hf]

/-- If `toPublicModel` keeps the `description` key, the internal record has it. -/
theorem pub_description_imp (m : ModelInternal) :
    (toPublicModel m).description.isSome = true → m.description.isSome = true := by
  cases hf : m.description with
  | none => simp [toPublicModel, isTruthyStr, hf]
  | some s => simp [hf]

/-- If `toPublicModel` keeps the `cost` key, the internal record has it. -/
theorem pub_cost_imp (m : ModelInternal) :
    (toPublicModel m).cost.isSome = true → m.cost.isSome = true := by
  cases hf : m.cost with
  | none => simp [toPublicModel, hf]
  | some s => simp [hf]

/-- Abstract form of the model-record field-subset argument: the presence
flags of the conditional keys are abstracted to booleans, with one
implication per key linking the public flag to the internal flag. -/
theorem model_fields_subset_aux
    (pf pt ps pk pst pd pc bf bt bs bk bst bd bc : Bool)
    (hf : pf = true → bf = true) (ht : pt = bt) (hs : ps = bs)
    (hk2 : pk = true → bk = true) (hst2 : pst = true → bst = true)
    (hd : pd = true → bd = true) (hc : pc = true → bc = true) :
    (["id", "name"] ++ (if pf then ["family"] else [])
      ++ ["provider", "release_date", "last_updated",
          "attachment", "reasoning", "tool_call", "open_weights"]
      ++ (if pt then ["temperature"] else [])
      ++ (if ps then ["structured_output"] else [])
      ++ (if pk then ["knowledge"] else [])
      ++ (if pst then ["status"] else [])
      ++ (if pd then ["description"] else [])
      ++ ["modalities", "limit"]
      ++ (if pc then ["cost"] else []))
    ⊆ (["id", "name"] ++ (if bf then ["family"] else [])
      ++ ["provider", "release_date", "last_updated",
          "attachment", "reasoning", "tool_call", "open_weights"]
      ++ (if bt then ["temperature"] else [])
      ++ (if bs then ["structured_output"] else [])
      ++ (if bk then ["knowledge"] else [])
      ++ (if bst then ["status"] else [])
      ++ (if bd then ["description"] else [])
      ++ (if bc then ["cost"] else [])
      ++ ["limit", "modalities"]) := by
  subst ht hs
  intro k hk
  simp only [List.mem_append, List.mem_cons, List.not_mem_nil, mem_if_singleton] at hk ⊢
  itauto

/--
C5: at every level of the emitted manifests — root records, group/provider
records, and unit (skill/model) records — every JSON key present on the
public variant is also present on the internal variant built from the same
normalized data; the public variant never contains a key absent from the
internal one.
-/
theorem public_fields_subset_internal :
    (∀ m : ModelInternal, modelPublicFields (toPublicModel m) ⊆ modelInternalFields m) ∧
    (∀ (meta : ProviderMeta) (hasLogo : Bool) (models : List ModelInternal),
      providerPublicFields (mkProviderPublic meta hasLogo models) ⊆
        providerInternalFields (mkProviderInternal meta hasLogo models)) ∧
    skillPublicRecordFields ⊆ skillInternalRecordFields ∧
    groupPublicRecordFields ⊆ groupInternalRecordFields ∧
    skillsManifestPublicFields ⊆ skillsManifestInternalFields ∧
    defsManifestPublicFields ⊆ defsManifestInternalFields := by
  refine ⟨?_, ?_, fun _ hk => hk, fun _ hk => hk, fun _ hk => hk, fun _ hk => hk⟩
  · intro m
    exact model_fields_subset_aux
      ((toPublicModel m).family.isSome) ((toPublicModel m).temperature.isSome)
      ((toPublicModel m).structured_output.isSome) ((toPublicModel m).knowledge.isSome)
      ((toPublicModel m).status.isSome) ((toPublicModel m).description.isSome)
      ((toPublicModel m).cost.isSome)
      (m.family.isSome) (m.temperature.isSome) (m.structured_output.isSome)
      (m.knowledge.isSome) (m.status.isSome) (m.description.isSome) (m.cost.isSome)
      (pub_family_imp m) rfl rfl (pub_knowledge_imp m) (pub_status_imp m)
      (pub_description_imp m) (pub_cost_imp m)
  · intro meta hasLogo models
    intro k hk
    simp only [providerPublicFields, providerInternalFields, mkProviderPublic,
      mkProviderInternal, List.mem_append, List.mem_cons, List.not_mem_nil,
      mem_if_singleton] at hk ⊢
    itauto

/-- Every group record the group loop emits carries a `skill_count` equal to
the length of its (final, sorted) `skills` array. -/
theorem runGroups_all_counts (dl : List Str) (st : SkState) (gs : List GroupSrc) :
    (((runGroups dl st gs).2.1).all (fun g => g.skill_count == g.skills.length)) = true ∧
    (((runGroups dl st gs).2.2).all (fun g => g.skill_count == g.skills.length)) = true := by
  induction gs generalizing st with
  | nil => simp [runGroups]
  | cons g gs ih =>
    simp only [runGroups, List.all_cons]
    constructor
    · simp [processGroup, (ih _).1]
    · simp [processGroup, (ih _).2]

/-- Every provider record the provider loop emits carries a `model_count`
equal to the length of its models array. -/
theorem buildDefsCore_all_counts (ps : List ProviderSrc) :
    ((buildDefsCore ps).1.all (fun p => p.model_count == p.models.length)) = true ∧
    ((buildDefsCore ps).2.1.all (fun p => p.model_count == p.models.length)) = true := by
  induction ps with
  | nil => simp [buildDefsCore]
  | cons p ps ih =>
    simp only [buildDefsCore, List.all_cons]
    constructor
    · simp [buildProvider, mkProviderInternal, ih.1]
    · simp [buildProvider, mkProviderPublic, ih.2]

/-- The incrementally tracked `modelTotal` equals the sum of the per-provider
counts over either emitted provider list. -/
theorem buildDefsCore_total (ps : List ProviderSrc) :
    (buildDefsCore ps).2.2 = ((buildDefsCore ps).1.map ProviderOutI.model_count).sum ∧
    (buildDefsCore ps).2.2 = ((buildDefsCore ps).2.1.map ProviderOutP.model_count).sum := by
  induction ps with
  | nil => simp [buildDefsCore]
  | cons p ps ih =>
    simp only [buildDefsCore, List.map_cons, List.sum_cons]
    constructor
    · rw [← ih.1]
    · rw [← ih.2]
      simp [buildProvider, mkProviderInternal, mkProviderPublic]

/--
C7: in every emitted manifest the aggregate counts agree with the final
assembled structure: each group's `skill_count` (resp. each provider's
`model_count`) equals the length of its units array, `total_skills`
(resp. `total_models`) equals the sum of the per-group (per-provider) counts
over the final sequence, and `total_providers` equals the length of the final
providers sequence.
-/
theorem aggregate_counts_recomputed (dl : List Str) (sc : List GroupSrc)
    (dc : List ProviderSrc) (t : Str) :
    ((buildSkillsManifests dl sc t).1.groups.all
        (fun g => g.skill_count == g.skills.length)) = true ∧
    ((buildSkillsManifests dl sc t).2.1.groups.all
        (fun g => g.skill_count == g.skills.length)) = true ∧
    (buildSkillsManifests dl sc t).1.total_skills =
      ((buildSkillsManifests dl sc t).1.groups.map GroupOut.skill_count).sum ∧
    (buildSkillsManifests dl sc t).2.1.total_skills =
      ((buildSkillsManifests dl sc t).2.1.groups.map GroupOut.skill_count).sum ∧
    ((buildDefsManifests dc t).1.providers.all
        (fun p => p.model_count == p.models.length)) = true ∧
    ((buildDefsManifests dc t).2.providers.all
        (fun p => p.model_count == p.models.length)) = true ∧
    (buildDefsManifests dc t).1.total_models =
      ((buildDefsManifests dc t).1.providers.map ProviderOutP.model_count).sum ∧
    (buildDefsManifests dc t).2.total_models =
      ((buildDefsManifests dc t).2.providers.map ProviderOutI.model_count).sum ∧
    (buildDefsManifests dc t).1.total_providers =
      (buildDefsManifests dc t).1.providers.length ∧
    (buildDefsManifests dc t).2.total_providers =
      (buildDefsManifests dc t).2.providers.length := by
  refine ⟨(runGroups_all_counts dl initialSkState (sortByName GroupSrc.name sc)).1,
    (runGroups_all_counts dl initialSkState (sortByName GroupSrc.name sc)).2,
    ?_, ?_, ?_, ?_, ?_, ?_, rfl, rfl⟩
  · simp only [buildSkillsManifests]
    rw [foldl_add_eq_sum_map, Nat.zero_add]
  · simp only [buildSkillsManifests]
    rw [foldl_add_eq_sum_map, Nat.zero_add]
  · simp only [buildDefsManifests]
    rw [all_of_perm (sortByName_perm ProviderOutP.name _)]
    exact (buildDefsCore_all_counts _).2
  · simp only [buildDefsManifests]
    rw [all_of_perm (sortByName_perm ProviderOutI.name _)]
    exact (buildDefsCore_all_counts _).1
  · simp only [buildDefsManifests]
    rw [sum_map_of_perm (sortByName_perm ProviderOutP.name _)]
    exact (buildDefsCore_total _).2
  · simp only [buildDefsManifests]
    rw [sum_map_of_perm (sortByName_perm ProviderOutI.name _)]
    exact (buildDefsCore_total _).1

/-- Every group record emitted by the group loop has
`slug = slugifyGroupName(name)`. -/
theorem runGroups_slugs (dl : List Str) (st : SkState) (gs : List GroupSrc)
    (g : GroupOut) :
    (g ∈ (runGroups dl st gs).2.1 → g.slug = slugifyGroupName g.name) ∧
    (g ∈ (runGroups dl st gs).2.2 → g.slug = slugifyGroupName g.name) := by
  induction gs generalizing st with
  | nil => simp [runGroups]
  | cons gr gs ih =>
    simp only [runGroups, List.mem_cons]
    constructor
    · rintro (rfl | hmem)
      · simp [processGroup]
      · exact (ih _).1 hmem
    · rintro (rfl | hmem)
      · simp [processGroup]
      · exact (ih _).2 hmem

/--
C9 (amended): in every emitted skills manifest (public and internal), each
group's slug is exactly `slugifyGroupName` of its display name — slug
derivation is a pure function of the group name, identical within and across
runs.  Case-insensitive uniqueness, however, is not enforced (see the
counterexample theorem).
-/
theorem group_slug_derived_from_name (dl : List Str) (sc : List GroupSrc)
    (t : Str) (g : GroupOut) :
    (g ∈ (buildSkillsManifests dl sc t).1.groups → g.slug = slugifyGroupName g.name) ∧
    (g ∈ (buildSkillsManifests dl sc t).2.1.groups → g.slug = slugifyGroupName g.name) :=
  runGroups_slugs dl initialSkState (sortByName GroupSrc.name sc) g

theorem group_slug_derived_from_name_witness :
    ({ name := ("A").toList, slug := ("a").toList, skill_count := 0,
       skills := [] } : GroupOut).slug = slugifyGroupName (("A").toList) :=
  (group_slug_derived_from_name [] [{ name := ("A").toList, skills := [] }] []
    { name := ("A").toList, slug := ("a").toList, skill_count := 0, skills := [] }).1
    (by decide)

/--
C9 counterexample: group slugs are not case-insensitive-unique.  Two sibling
group directories named `Foo` and `foo` (legal on a case-sensitive
filesystem) both slugify to `foo`; the emitted manifest contains both groups,
distinct records with equal slugs, falsifying the uniqueness half of the
claim.
-/
theorem group_slugs_not_case_insensitive_unique :
    ((buildSkillsManifests [] [{ name := ("Foo").toList, skills := [] },
        { name := ("foo").toList, skills := [] }] []).1.groups.map GroupOut.slug)
      = [("foo").toList, ("foo").toList] ∧
    ((buildSkillsManifests [] [{ name := ("Foo").toList, skills := [] },
        { name := ("foo").toList, skills := [] }] []).1.groups.map GroupOut.name)
      = [("Foo").toList, ("foo").toList] ∧
    ¬ (∀ g1 ∈ (buildSkillsManifests [] [{ name := ("Foo").toList, skills := [] },
          { name := ("foo").toList, skills := [] }] []).1.groups,
       ∀ g2 ∈ (buildSkillsManifests [] [{ name := ("Foo").toList, skills := [] },
          { name := ("foo").toList, skills := [] }] []).1.groups,
        g1 ≠ g2 → g1.slug ≠ g2.slug) := by
  refine ⟨by decide, by decide, ?_⟩
  decide
